import Mathlib

/-!
Shallow embedding of the `useEarthquakeSonifier` hook and its scheduling
engine (src/src/EarthquakeCanvas.tsx, second document: useEarthquakeSonifier.ts).
JavaScript numbers are modelled as rationals, with an explicit NaN
constructor where the code tests `Number.isNaN`.  The Web Audio and
wall-clock side effects of `start`/`stop` are modelled as explicit state
passing over a `Session` record, and reachable session states are the
closure of the transitions the component can take.
-/

namespace Sonifier

/-- A JavaScript number: either NaN or a real value (modelled as a rational). -/
inductive JsNum where
  | nan : JsNum
  | num : ℚ → JsNum
deriving DecidableEq

/-- The JavaScript expression `x || 0` applied to a number: NaN (and 0) become 0,
every other number is returned unchanged.  For a non-NaN number `q` the result
is `q` itself, because `0 || 0` is `0`. -/
def JsNum.orZero : JsNum → ℚ
  | .nan => 0
  | .num q => q

/-- `mapRange(value, inMin, inMax, outMin, outMax)` from the source:
NaN returns `outMin`; otherwise the value is clamped with
`Math.min(inMax, Math.max(inMin, value))`, normalised (0 when the input
range is degenerate) and linearly interpolated. -/
def mapRange (value : JsNum) (inMin inMax outMin outMax : ℚ) : ℚ :=
  match value with
  | .nan => outMin
  | .num v =>
    let clamped := min inMax (max inMin v)
    let norm := if inMax = inMin then 0 else (clamped - inMin) / (inMax - inMin)
    outMin + norm * (outMax - outMin)

/-- One GeoJSON-like earthquake feature, flattened:
`properties.mag`, `properties.time` (epoch milliseconds), `properties.place`,
`geometry.coordinates = [lon, lat, depthKm]`. -/
structure EarthquakeFeature where
  mag : JsNum
  time : ℤ
  place : String
  lon : ℚ
  lat : JsNum
  depthKm : JsNum
deriving DecidableEq

/-- `Math.min(...times)` over a non-empty list (the empty case is unreachable
because `start` returns before computing it; 0 is an arbitrary default). -/
def listMin : List ℤ → ℤ
  | [] => 0
  | t :: ts => ts.foldl min t

/-- `Math.max(...times)` over a non-empty list (empty case unreachable). -/
def listMax : List ℤ → ℤ
  | [] => 0
  | t :: ts => ts.foldl max t

/-- `startOffset = 0.5` seconds, from `start`. -/
def startOffset : ℚ := 1 / 2

/-- The session-scoped timeline mapping computed once per `start`:
`minTime`/`maxTime` are full scans of the timestamps, `spanMs` is
`maxTime - minTime || 1`, and `timeScale = spanMs / totalDuration`. -/
structure TimelineMapping where
  minTime : ℤ
  maxTime : ℤ
  spanMs : ℤ
  timeScale : ℚ
deriving DecidableEq

/-- Computes the timeline mapping exactly as the loop preamble of `start` does. -/
def computeMapping (quakes : List EarthquakeFeature) (durationSec : ℚ) : TimelineMapping :=
  let times := quakes.map (fun f => f.time)
  let minT := listMin times
  let maxT := listMax times
  let spanMs := if maxT - minT = 0 then 1 else maxT - minT
  { minTime := minT
    maxTime := maxT
    spanMs := spanMs
    timeScale := (spanMs : ℚ) / durationSec }

/-- `t = now + startOffset + relMs / timeScale` for one feature, the
AudioContext-clock onset computed inside the `start` loop. -/
def onsetTime (now : ℚ) (m : TimelineMapping) (f : EarthquakeFeature) : ℚ :=
  now + startOffset + ((f.time - m.minTime : ℤ) : ℚ) / m.timeScale

/-- All Web Audio parameter values laid down by `schedulePercussiveHit` for one
event, anchored at AudioContext time `time`: pan position, the noise-burst
filter/envelope/start/stop and the tuned-click oscillator/envelope/start/stop. -/
structure HitSchedule where
  pan : ℚ
  noiseCenterFreq : ℚ
  noiseQ : ℚ
  noiseGainStart : ℚ
  noisePeakGain : ℚ
  noisePeakTime : ℚ
  noiseEndGain : ℚ
  noiseEndTime : ℚ
  noiseStartTime : ℚ
  noiseStopTime : ℚ
  clickFreq : ℚ
  clickPeakGain : ℚ
  clickPeakTime : ℚ
  clickEndGain : ℚ
  clickEndTime : ℚ
  clickStartTime : ℚ
  clickStopTime : ℚ
deriving DecidableEq

/-- `schedulePercussiveHit(ctx, drone, { time, mag, lat, depthKm })`, translated
line by line: clamp magnitude and depth, derive the pan position, the
noise-burst bandpass/envelope and the triangle click tone/envelope. -/
def schedulePercussiveHit (time : ℚ) (mag lat depthKm : JsNum) : HitSchedule :=
  let magClamped := max 0 (min 7 mag.orZero)
  let depthClamped := max 0 (min 700 depthKm.orZero)
  let panPos := mapRange lat (-90) 90 (-1) 1
  let centerFreq := mapRange (.num depthClamped) 0 700 6000 400
  let noiseMaxGain := mapRange (.num magClamped) 0 7 (5 / 100) (35 / 100)
  let clickFreq := 330 * mapRange (.num magClamped) 0 7 (7 / 10) 3
  let clickMaxGain := mapRange (.num magClamped) 0 7 (3 / 100) (2 / 10)
  { pan := panPos
    noiseCenterFreq := centerFreq
    noiseQ := 6
    noiseGainStart := 0
    noisePeakGain := noiseMaxGain
    noisePeakTime := time + 1 / 100
    noiseEndGain := 1 / 10000
    noiseEndTime := time + 18 / 100
    noiseStartTime := time
    noiseStopTime := time + 25 / 100
    clickFreq := clickFreq
    clickPeakGain := clickMaxGain
    clickPeakTime := time + 5 / 1000
    clickEndGain := 1 / 10000
    clickEndTime := time + 15 / 100
    clickStartTime := time
    clickStopTime := time + 2 / 10 }

/-- The drone node bundle held in `droneRef`.  `gen` identifies the concrete
handle (a fresh generation is allocated each time `ensureDrone` constructs new
nodes), and `oscsStopped` records whether `osc.stop` has been called on the
three oscillators. -/
structure DroneState where
  gen : ℕ
  oscsStopped : Bool
deriving DecidableEq

/-- The mutable refs and React state of one `useEarthquakeSonifier` session.
Timers carry their id and their delay in wall-clock milliseconds. -/
structure Session where
  isPlaying : Bool
  droneRef : Option DroneState
  droneGenCounter : ℕ
  visualTimeouts : List (ℕ × ℚ)
  endTimeout : Option (ℕ × ℚ)
  transients : List ℕ
  nextTimerId : ℕ
  disposed : Bool
deriving DecidableEq

/-- The state of a freshly mounted hook: nothing playing, no drone, no timers. -/
def initSession : Session :=
  { isPlaying := false
    droneRef := none
    droneGenCounter := 0
    visualTimeouts := []
    endTimeout := none
    transients := []
    nextTimerId := 0
    disposed := false }

/-- `ensureDrone(ctx)`: return the cached nodes if they exist, otherwise build,
wire and start the three oscillators and cache the bundle. -/
def ensureDrone (s : Session) : Session × DroneState :=
  match s.droneRef with
  | some d => (s, d)
  | none =>
    let d : DroneState := { gen := s.droneGenCounter, oscsStopped := false }
    ({ s with droneRef := some d, droneGenCounter := s.droneGenCounter + 1 }, d)

/-- `source.stop()` on a Web Audio scheduled source: raises `InvalidStateError`
when the source has already been stopped. -/
def sourceStop (stopped : Bool) : Except String Bool :=
  if stopped then .error "InvalidStateError" else .ok true

/-- The `try { osc.stop(...) } catch { /* ignore */ }` pattern used by `stop`:
the stop attempt is made and any error is swallowed locally. -/
def tryStop (stopped : Bool) : Bool :=
  match sourceStop stopped with
  | .ok b => b
  | .error _ => stopped

/-- The body of the `if (onEvent)` branch executed once per iteration of the
`for (const feature of quakes)` loop: arm one `setTimeout` per feature, in
iteration order, with delay `max(0, (t - now) * 1000)` milliseconds, pushing
each fresh timer id onto the visual-timeout list. -/
def armVisualTimers (now : ℚ) (m : TimelineMapping) (nextId : ℕ) :
    List EarthquakeFeature → List (ℕ × ℚ)
  | [] => []
  | f :: fs =>
    (nextId, max 0 ((onsetTime now m f - now) * 1000)) :: armVisualTimers now m (nextId + 1) fs

/-- `start()`: no-op when `features` is null or its list is empty; otherwise
ensure the drone, compute the timeline mapping, clear the pending visual
timeouts, arm one visual timeout per event (when `onEvent` is supplied) with
delay `max(0, (t - now) * 1000)`, mark the session playing and (re)arm the
end-of-performance timeout at `(startOffset + durationSec + 3) * 1000` ms. -/
def start (features : Option (List EarthquakeFeature)) (durationSec : ℚ)
    (hasOnEvent : Bool) (now : ℚ) (s : Session) : Session :=
  match features with
  | none => s
  | some quakes =>
    if quakes.length = 0 then s
    else
      let s1 := (ensureDrone s).1
      let m := computeMapping quakes durationSec
      let s2 := { s1 with visualTimeouts := [] }
      let timers :=
        if hasOnEvent then armVisualTimers now m s2.nextTimerId quakes
        else []
      let endId := s2.nextTimerId + quakes.length
      { s2 with
          visualTimeouts := timers
          isPlaying := true
          endTimeout := some (endId, (startOffset + durationSec + 3) * 1000)
          nextTimerId := endId + 1 }

/-- `stop()`: when a context and drone exist, fade the gain and try to stop the
three oscillators (errors swallowed); force-stop and clear every transient,
clear every visual timeout and the end timeout, and set not-playing.  Safe when
nothing was ever started. -/
def stop (s : Session) : Session :=
  let droneAfter := s.droneRef.map (fun d => { d with oscsStopped := tryStop d.oscsStopped })
  { s with
      droneRef := droneAfter
      transients := []
      visualTimeouts := []
      endTimeout := none
      isPlaying := false }

/-- The callback of the end-of-performance timeout: fade the drone gain to 0
over 3 s and `setIsPlaying(false)`.  It clears neither `visualTimeoutsRef` nor
`endTimeoutRef`. -/
def endTimerFires (s : Session) : Session :=
  { s with isPlaying := false }

/-- The unmount cleanup effect: `stop()`, close the AudioContext and null out
the drone, noise-buffer and timer refs. -/
def dispose (s : Session) : Session :=
  let s1 := stop s
  { s1 with droneRef := none, visualTimeouts := [], disposed := true }

/-- A transient source's `ended` listener: the node removes itself from the
live transient set when it finishes naturally. -/
def transientEnded (id : ℕ) (s : Session) : Session :=
  { s with transients := s.transients.erase id }

/-- The session states reachable from a fresh mount through the transitions
the component can actually take: `start` (only while mounted), `stop`, the
end-of-performance timeout firing (only while armed), natural transient
completion, and unmount disposal. -/
inductive Reachable : Session → Prop where
  | init : Reachable initSession
  | startStep (s : Session) (features : Option (List EarthquakeFeature))
      (durationSec : ℚ) (hasOnEvent : Bool) (now : ℚ) :
      Reachable s → s.disposed = false →
      Reachable (start features durationSec hasOnEvent now s)
  | stopStep (s : Session) : Reachable s → Reachable (stop s)
  | endFires (s : Session) : Reachable s → s.endTimeout.isSome →
      Reachable (endTimerFires s)
  | transientDone (s : Session) (id : ℕ) : Reachable s →
      Reachable (transientEnded id s)
  | disposeStep (s : Session) : Reachable s → Reachable (dispose s)

/-- A concrete feature with the given timestamp, for instantiating theorems. -/
def mkFeature (t : ℤ) : EarthquakeFeature :=
  { mag := .num 5, time := t, place := "somewhere", lon := 20, lat := .num 10,
    depthKm := .num 70 }

/-- The session obtained by mounting, starting one event with an `onEvent`
callback, and letting the end-of-performance timeout fire. -/
def afterEndFires : Session :=
  endTimerFires (start (some [mkFeature 0]) 60 true 0 initSession)

/-- The session obtained by mounting, starting one event, then calling `stop`. -/
def afterStopOnce : Session :=
  stop (start (some [mkFeature 0]) 60 false 0 initSession)

/-- A convex combination `a + t * (b - a)` with `t ∈ [0, 1]` lies between
`min a b` and `max a b`. -/
theorem convexCombBound (a b t : ℚ) (h0 : 0 ≤ t) (h1 : t ≤ 1) :
    min a b ≤ a + t * (b - a) ∧ a + t * (b - a) ≤ max a b := by
  rcases le_total a b with h | h
  · rw [min_eq_left h, max_eq_right h]
    constructor <;> nlinarith
  · rw [min_eq_right h, max_eq_left h]
    constructor <;> nlinarith

/-- For a degenerate input range, `mapRange` returns `outMin` on every value. -/
theorem mapRange_degenerate (v : JsNum) (c outMin outMax : ℚ) :
    mapRange v c c outMin outMax = outMin := by
  cases v with
  | nan => rfl
  | num q => simp [mapRange]

/-- Claim C3: `mapRange` is a pure total function: NaN returns `outMin`, a
degenerate input range yields normalised position 0 (hence `outMin`), the
value is clamped to the input range, the four concrete evaluations from the
spec hold, and for a proper input range the result always lies between
`min outMin outMax` and `max outMin outMax`. -/
theorem mapRange_contract (value : JsNum) (inMin inMax outMin outMax : ℚ)
    (h : inMin < inMax) :
    (∀ a b, mapRange .nan inMin inMax a b = a)
    ∧ (∀ v c, mapRange v c c outMin outMax = outMin)
    ∧ mapRange .nan 0 1 0 10 = 0
    ∧ mapRange (.num (-5)) 0 10 0 100 = 0
    ∧ mapRange (.num 15) 0 10 0 100 = 100
    ∧ mapRange (.num 5) 0 10 0 100 = 50
    ∧ min outMin outMax ≤ mapRange value inMin inMax outMin outMax
    ∧ mapRange value inMin inMax outMin outMax ≤ max outMin outMax := by
  refine ⟨fun a b => rfl, fun v c => mapRange_degenerate v c outMin outMax,
    by norm_num [mapRange], by norm_num [mapRange], by norm_num [mapRange],
    by norm_num [mapRange], ?_, ?_⟩ <;>
  · cases value with
    | nan =>
      simp only [mapRange]
      first
        | exact min_le_left outMin outMax
        | exact le_max_left outMin outMax
    | num v =>
      have hne : inMax ≠ inMin := ne_of_gt h
      have hclampLo : inMin ≤ min inMax (max inMin v) :=
        le_min (le_of_lt h) (le_max_left inMin v)
      have hclampHi : min inMax (max inMin v) ≤ inMax := min_le_left inMax (max inMin v)
      have hdenom : (0 : ℚ) < inMax - inMin := sub_pos.mpr h
      have hnorm0 : 0 ≤ (min inMax (max inMin v) - inMin) / (inMax - inMin) :=
        div_nonneg (by linarith) (le_of_lt hdenom)
      have hnorm1 : (min inMax (max inMin v) - inMin) / (inMax - inMin) ≤ 1 :=
        (div_le_one hdenom).mpr (by linarith)
      have hb := convexCombBound outMin outMax
        ((min inMax (max inMin v) - inMin) / (inMax - inMin)) hnorm0 hnorm1
      simp only [mapRange, hne, if_false]
      first | exact hb.1 | exact hb.2

/-- Witness for C3 at `value = 1/3`, input range `[0, 1]`, output range `[0, 10]`. -/
theorem mapRange_contract_witness :
    (0 : ℚ) < 1 ∧ min (0 : ℚ) 10 ≤ mapRange (.num (1 / 3)) 0 1 0 10 :=
  ⟨by norm_num, (mapRange_contract (.num (1 / 3)) 0 1 0 10 (by norm_num)).2.2.2.2.2.2.1⟩

/-- Claim C10: with a reversed input range (`inMax < inMin`), the clamp
collapses every non-NaN value to `inMax`, the normalised position is exactly
1, and `mapRange` returns `outMax` regardless of the value. -/
theorem mapRange_reversed (v inMin inMax outMin outMax : ℚ) (h : inMax < inMin) :
    mapRange (.num v) inMin inMax outMin outMax = outMax := by
  have hclamp : min inMax (max inMin v) = inMax :=
    min_eq_left (le_trans (le_of_lt h) (le_max_left inMin v))
  have hne : inMax ≠ inMin := ne_of_lt h
  have hdenom : inMax - inMin ≠ 0 := sub_ne_zero.mpr hne
  simp only [mapRange, hclamp, hne, if_false]
  rw [div_self hdenom]
  ring

/-- Witness for C10 at `value = 42`, reversed input range `[10, 0]`. -/
theorem mapRange_reversed_witness :
    (0 : ℚ) < 10 ∧ mapRange (.num 42) 10 0 3 7 = 7 :=
  ⟨by norm_num, mapRange_reversed 42 10 0 3 7 (by norm_num)⟩

theorem foldlMin_le_init (ts : List ℤ) (t : ℤ) : ts.foldl min t ≤ t := by
  induction ts generalizing t with
  | nil => simp
  | cons a l ih => exact le_trans (ih (min t a)) (min_le_left t a)

theorem foldlMin_le_mem (ts : List ℤ) (t x : ℤ) (hx : x ∈ ts) : ts.foldl min t ≤ x := by
  induction ts generalizing t with
  | nil => cases hx
  | cons a l ih =>
    rcases List.mem_cons.mp hx with rfl | hmem
    · exact le_trans (foldlMin_le_init l (min t x)) (min_le_right t x)
    · exact ih (min t a) hmem

/-- `Math.min(...l)` is a lower bound of every element of `l`. -/
theorem listMin_le_mem (l : List ℤ) (x : ℤ) (hx : x ∈ l) : listMin l ≤ x := by
  cases l with
  | nil => cases hx
  | cons t ts =>
    rcases List.mem_cons.mp hx with rfl | hmem
    · exact foldlMin_le_init ts x
    · exact foldlMin_le_mem ts t x hmem

theorem init_le_foldlMax (ts : List ℤ) (t : ℤ) : t ≤ ts.foldl max t := by
  induction ts generalizing t with
  | nil => simp
  | cons a l ih => exact le_trans (le_max_left t a) (ih (max t a))

theorem mem_le_foldlMax (ts : List ℤ) (t x : ℤ) (hx : x ∈ ts) : x ≤ ts.foldl max t := by
  induction ts generalizing t with
  | nil => cases hx
  | cons a l ih =>
    rcases List.mem_cons.mp hx with rfl | hmem
    · exact le_trans (le_max_right t x) (init_le_foldlMax l (max t x))
    · exact ih (max t a) hmem

/-- `Math.max(...l)` is an upper bound of every element of `l`. -/
theorem mem_le_listMax (l : List ℤ) (x : ℤ) (hx : x ∈ l) : x ≤ listMax l := by
  cases l with
  | nil => cases hx
  | cons t ts =>
    rcases List.mem_cons.mp hx with rfl | hmem
    · exact init_le_foldlMax ts x
    · exact mem_le_foldlMax ts t x hmem

theorem foldlMin_self_or_mem (ts : List ℤ) (t : ℤ) :
    ts.foldl min t = t ∨ ts.foldl min t ∈ ts := by
  induction ts generalizing t with
  | nil => exact Or.inl rfl
  | cons a l ih =>
    rcases ih (min t a) with hfold | hfold
    · rcases min_choice t a with hch | hch
      · exact Or.inl (by rw [List.foldl_cons, hfold, hch])
      · exact Or.inr (by rw [List.foldl_cons, hfold, hch]; exact List.mem_cons_self a l)
    · exact Or.inr (List.mem_cons_of_mem a hfold)

/-- On a non-empty list, `Math.min(...l)` is one of the elements. -/
theorem listMin_mem (l : List ℤ) (h : l ≠ []) : listMin l ∈ l := by
  cases l with
  | nil => exact absurd rfl h
  | cons t ts =>
    rcases foldlMin_self_or_mem ts t with hfold | hfold
    · simp only [listMin, hfold]
      exact List.mem_cons_self t ts
    · simp only [listMin]
      exact List.mem_cons_of_mem t hfold

theorem foldlMax_self_or_mem (ts : List ℤ) (t : ℤ) :
    ts.foldl max t = t ∨ ts.foldl max t ∈ ts := by
  induction ts generalizing t with
  | nil => exact Or.inl rfl
  | cons a l ih =>
    rcases ih (max t a) with hfold | hfold
    · rcases max_choice t a with hch | hch
      · exact Or.inl (by rw [List.foldl_cons, hfold, hch])
      · exact Or.inr (by rw [List.foldl_cons, hfold, hch]; exact List.mem_cons_self a l)
    · exact Or.inr (List.mem_cons_of_mem a hfold)

/-- On a non-empty list, `Math.max(...l)` is one of the elements. -/
theorem listMax_mem (l : List ℤ) (h : l ≠ []) : listMax l ∈ l := by
  cases l with
  | nil => exact absurd rfl h
  | cons t ts =>
    rcases foldlMax_self_or_mem ts t with hfold | hfold
    · simp only [listMax, hfold]
      exact List.mem_cons_self t ts
    · simp only [listMax]
      exact List.mem_cons_of_mem t hfold

/-- Claim C1: for any two scheduled events `A`, `B` with
`A.timestampMs < B.timestampMs`, the computed audio-clock onset of `A` is at
most that of `B`, regardless of their positions in the array: `minTime` is the
minimum over all timestamps and the scale factor is positive once the
requested duration is. -/
theorem onset_monotone (quakes : List EarthquakeFeature) (durationSec now : ℚ)
    (hdur : 0 < durationSec) (A B : EarthquakeFeature)
    (hA : A ∈ quakes) (hB : B ∈ quakes) (hAB : A.time < B.time) :
    onsetTime now (computeMapping quakes durationSec) A
      ≤ onsetTime now (computeMapping quakes durationSec) B := by
  have hAt : A.time ∈ quakes.map (fun f => f.time) := List.mem_map_of_mem _ hA
  have hBt : B.time ∈ quakes.map (fun f => f.time) := List.mem_map_of_mem _ hB
  have hmin : listMin (quakes.map (fun f => f.time)) ≤ A.time := listMin_le_mem _ _ hAt
  have hmax : B.time ≤ listMax (quakes.map (fun f => f.time)) := mem_le_listMax _ _ hBt
  have hcond : ¬(listMax (quakes.map (fun f => f.time))
      - listMin (quakes.map (fun f => f.time)) = 0) := by omega
  have hspan : (computeMapping quakes durationSec).spanMs
      = listMax (quakes.map (fun f => f.time)) - listMin (quakes.map (fun f => f.time)) := by
    simp only [computeMapping, hcond, if_false]
  have hspanpos : (0 : ℤ) < (computeMapping quakes durationSec).spanMs := by
    rw [hspan]; omega
  have hts : (0 : ℚ) < (computeMapping quakes durationSec).timeScale := by
    have heq : (computeMapping quakes durationSec).timeScale
        = ((computeMapping quakes durationSec).spanMs : ℚ) / durationSec := rfl
    rw [heq]
    exact div_pos (by exact_mod_cast hspanpos) hdur
  have hminT : (computeMapping quakes durationSec).minTime
      = listMin (quakes.map (fun f => f.time)) := rfl
  have hnum : ((A.time - (computeMapping quakes durationSec).minTime : ℤ) : ℚ)
      ≤ ((B.time - (computeMapping quakes durationSec).minTime : ℤ) : ℚ) := by
    have : A.time - (computeMapping quakes durationSec).minTime
        ≤ B.time - (computeMapping quakes durationSec).minTime := by omega
    exact_mod_cast this
  unfold onsetTime
  exact add_le_add_left ((div_le_div_iff_of_pos_right hts).mpr hnum) _

/-- Witness for C1: two events, out of array order, timestamps 0 < 1000. -/
theorem onset_monotone_witness :
    (0 : ℚ) < 60 ∧ (mkFeature 0).time < (mkFeature 1000).time ∧
      onsetTime 2 (computeMapping [mkFeature 1000, mkFeature 0] 60) (mkFeature 0)
        ≤ onsetTime 2 (computeMapping [mkFeature 1000, mkFeature 0] 60) (mkFeature 1000) :=
  ⟨by norm_num, by decide,
    onset_monotone [mkFeature 1000, mkFeature 0] 60 2 (by norm_num)
      (mkFeature 0) (mkFeature 1000) (by decide) (by decide) (by decide)⟩

/-- Claim C4: when every event of a non-empty collection shares one timestamp,
the zero span is replaced by 1 (`spanMs = 1`, so no division by the zero span
occurs) and every event's onset is exactly `now + startOffset = now + 0.5`. -/
theorem degenerate_span (quakes : List EarthquakeFeature) (c : ℤ)
    (durationSec now : ℚ) (hne : quakes ≠ [])
    (hall : ∀ f ∈ quakes, f.time = c) :
    (computeMapping quakes durationSec).spanMs = 1
      ∧ ∀ f ∈ quakes, onsetTime now (computeMapping quakes durationSec) f = now + 1 / 2 := by
  have htimes : ∀ x ∈ quakes.map (fun f => f.time), x = c := by
    intro x hx
    rcases List.mem_map.mp hx with ⟨f, hf, rfl⟩
    exact hall f hf
  have hmapne : quakes.map (fun f => f.time) ≠ [] := by
    intro hcontra
    exact hne (List.map_eq_nil_iff.mp hcontra)
  have hminc : listMin (quakes.map (fun f => f.time)) = c :=
    htimes _ (listMin_mem _ hmapne)
  have hmaxc : listMax (quakes.map (fun f => f.time)) = c :=
    htimes _ (listMax_mem _ hmapne)
  have hcond : listMax (quakes.map (fun f => f.time))
      - listMin (quakes.map (fun f => f.time)) = 0 := by omega
  have hspan : (computeMapping quakes durationSec).spanMs = 1 := by
    simp only [computeMapping, hcond, if_true]
  refine ⟨hspan, fun f hf => ?_⟩
  have hminT : (computeMapping quakes durationSec).minTime
      = listMin (quakes.map (fun f => f.time)) := rfl
  have hzero : f.time - (computeMapping quakes durationSec).minTime = 0 := by
    rw [hminT, hminc, hall f hf]
    omega
  unfold onsetTime
  rw [hzero]
  simp [startOffset]

/-- Witness for C4: two events sharing timestamp 5, onset is `now + 0.5`. -/
theorem degenerate_span_witness :
    ([mkFeature 5, mkFeature 5] : List EarthquakeFeature) ≠ []
      ∧ (∀ f ∈ ([mkFeature 5, mkFeature 5] : List EarthquakeFeature), f.time = 5)
      ∧ (computeMapping [mkFeature 5, mkFeature 5] 60).spanMs = 1
      ∧ ∀ f ∈ ([mkFeature 5, mkFeature 5] : List EarthquakeFeature),
          onsetTime 7 (computeMapping [mkFeature 5, mkFeature 5] 60) f = 7 + 1 / 2 := by
  have h := degenerate_span [mkFeature 5, mkFeature 5] 5 60 7 (by decide) (by decide)
  exact ⟨by decide, by decide, h.1, h.2⟩

/-- Claim C2: for 3 events at `t0, t0+3600000, t0+7200000` and a requested
duration of 60 s, the scheduler computes `timeScale = 120000`, onsets at
`+0.5 s`, `+30.5 s`, `+60.5 s` after the audio-clock `now` of `start`, and
arms exactly one visual timer per event, in that order, at those offsets in
milliseconds. -/
theorem three_event_scenario (t0 : ℤ) (now : ℚ) (s : Session) :
    (computeMapping
        [mkFeature t0, mkFeature (t0 + 3600000), mkFeature (t0 + 7200000)] 60).timeScale
      = 120000
    ∧ ([mkFeature t0, mkFeature (t0 + 3600000), mkFeature (t0 + 7200000)].map
        (onsetTime now (computeMapping
          [mkFeature t0, mkFeature (t0 + 3600000), mkFeature (t0 + 7200000)] 60)))
      = [now + 1 / 2, now + 61 / 2, now + 121 / 2]
    ∧ (start (some [mkFeature t0, mkFeature (t0 + 3600000), mkFeature (t0 + 7200000)])
        60 true now s).visualTimeouts.map Prod.snd = [500, 30500, 60500]
    ∧ (start (some [mkFeature t0, mkFeature (t0 + 3600000), mkFeature (t0 + 7200000)])
        60 true now s).isPlaying = true := by
  have hmin : listMin [t0, t0 + 3600000, t0 + 7200000] = t0 := by
    simp only [listMin, List.foldl_cons, List.foldl_nil]
    omega
  have hmax : listMax [t0, t0 + 3600000, t0 + 7200000] = t0 + 7200000 := by
    simp only [listMax, List.foldl_cons, List.foldl_nil]
    omega
  have hm : computeMapping
      [mkFeature t0, mkFeature (t0 + 3600000), mkFeature (t0 + 7200000)] 60
      = { minTime := t0, maxTime := t0 + 7200000, spanMs := 7200000,
          timeScale := 120000 } := by
    simp only [computeMapping, List.map_cons, List.map_nil, mkFeature, hmin, hmax]
    norm_num
  have honsets : [mkFeature t0, mkFeature (t0 + 3600000), mkFeature (t0 + 7200000)].map
      (onsetTime now (computeMapping
        [mkFeature t0, mkFeature (t0 + 3600000), mkFeature (t0 + 7200000)] 60))
      = [now + 1 / 2, now + 61 / 2, now + 121 / 2] := by
    rw [hm]
    simp only [List.map_cons, List.map_nil, onsetTime, startOffset, mkFeature]
    norm_num
    refine ⟨by ring, by ring⟩
  refine ⟨by rw [hm], honsets, ?_, ?_⟩
  · simp only [start, List.length_cons]
    norm_num
    rw [hm]
    simp only [armVisualTimers, List.map_cons, List.map_nil, onsetTime, startOffset, mkFeature]
    norm_num
    constructor
    · have h30 : (now + 1 / 2 + 30 - now) * 1000 = (30500 : ℚ) := by ring
      rw [h30]; norm_num
    · have h60 : (now + 1 / 2 + 60 - now) * 1000 = (60500 : ℚ) := by ring
      rw [h60]; norm_num
  · simp [start]

/-- Claim C8: `start` on a null or empty event collection is a no-op: the
session record (drone, timers, playing flag, everything) is returned
unchanged. -/
theorem start_noop_on_empty (durationSec : ℚ) (hasOnEvent : Bool) (now : ℚ)
    (s : Session) :
    start none durationSec hasOnEvent now s = s
      ∧ start (some []) durationSec hasOnEvent now s = s :=
  ⟨rfl, rfl⟩

/-- Claim C7: `stop` is idempotent and reentrant: `stop ∘ stop = stop`, after a
`stop` the session is idle with the transient set and the timer sets cleared,
stopping a never-started session leaves it exactly in the initial state, and
a stop of an already-stopped source raises an error that the surrounding
`try`/`catch` swallows without propagation. -/
theorem stop_idempotent (s : Session) :
    stop (stop s) = stop s
    ∧ (stop s).isPlaying = false
    ∧ (stop s).transients = []
    ∧ (stop s).visualTimeouts = []
    ∧ (stop s).endTimeout = none
    ∧ stop initSession = initSession
    ∧ sourceStop true = Except.error "InvalidStateError"
    ∧ tryStop true = true := by
  have htry : ∀ b, tryStop b = true := by intro b; cases b <;> rfl
  refine ⟨?_, rfl, rfl, rfl, rfl, rfl, rfl, rfl⟩
  rcases hd : s.droneRef with _ | d
  · simp [stop, hd]
  · simp [stop, hd, htry]

/-- Counterexample to claim C5: after `start` with one event and an `onEvent`
callback, letting the end-of-performance timeout fire reaches a state with
`isPlaying = false` in which both the visual timer handles and the
end-of-performance timer handle are still registered. -/
theorem pending_timer_invariant_cex :
    Reachable afterEndFires ∧ afterEndFires.isPlaying = false
      ∧ afterEndFires.visualTimeouts ≠ [] ∧ afterEndFires.endTimeout ≠ none := by
  refine ⟨?_, rfl, by decide, by decide⟩
  exact Reachable.endFires _
    (Reachable.startStep initSession (some [mkFeature 0]) 60 true 0 Reachable.init rfl)
    (by decide)

/-- Claim C5 as amended: `stop()` always leaves `isPlaying` false with the
visual timer handles and the end-of-performance handle cleared (and the
initial state has no registered timers); the end-of-performance callback,
however, only marks the session not-playing and leaves the registered
handles in place, so the emptiness invariant does not extend to every
not-playing reachable state. -/
theorem stop_clears_pending_timers (s : Session) :
    (stop s).isPlaying = false
    ∧ (stop s).visualTimeouts = []
    ∧ (stop s).endTimeout = none
    ∧ initSession.visualTimeouts = []
    ∧ initSession.endTimeout = none
    ∧ (endTimerFires s).isPlaying = false
    ∧ (endTimerFires s).visualTimeouts = s.visualTimeouts
    ∧ (endTimerFires s).endTimeout = s.endTimeout :=
  ⟨rfl, rfl, rfl, rfl, rfl, rfl, rfl, rfl⟩

/-- Counterexample to claim C6: one `stop` call schedules `osc.stop` on the
drone's three oscillators, so a reachable, not-yet-disposed session holds a
drone whose oscillators have been stopped — they are not kept running until
disposal, and the handle `ensureDrone` will return is no longer functional. -/
theorem drone_stopped_before_disposal_cex :
    Reachable afterStopOnce ∧ afterStopOnce.disposed = false
      ∧ afterStopOnce.droneRef.map DroneState.oscsStopped = some true := by
  refine ⟨?_, rfl, by decide⟩
  exact Reachable.stopStep _
    (Reachable.startStep initSession (some [mkFeature 0]) 60 false 0 Reachable.init rfl)

/-- Claim C6 as amended: the drone is created lazily on the first `start`
(generation 0, oscillators running) and the cached handle survives
`stop`/`start` cycling — a second `start` reuses the very same handle and
only disposal clears it — but `stop()` stops the three oscillators, so the
reused handle comes back with its oscillators stopped rather than
still-functional. -/
theorem drone_lifecycle_amended (quakes : List EarthquakeFeature)
    (hne : quakes ≠ []) (durationSec nowA nowB : ℚ) (hasOnEvent : Bool) :
    initSession.droneRef = none
    ∧ (start (some quakes) durationSec hasOnEvent nowA initSession).droneRef.map
        DroneState.gen = some 0
    ∧ (start (some quakes) durationSec hasOnEvent nowA initSession).droneRef.map
        DroneState.oscsStopped = some false
    ∧ (stop (start (some quakes) durationSec hasOnEvent nowA initSession)).droneRef.map
        DroneState.gen = some 0
    ∧ (stop (start (some quakes) durationSec hasOnEvent nowA initSession)).droneRef.map
        DroneState.oscsStopped = some true
    ∧ (stop (start (some quakes) durationSec hasOnEvent nowA initSession)).disposed = false
    ∧ (start (some quakes) durationSec hasOnEvent nowB
        (stop (start (some quakes) durationSec hasOnEvent nowA initSession))).droneRef.map
        DroneState.gen = some 0
    ∧ (start (some quakes) durationSec hasOnEvent nowB
        (stop (start (some quakes) durationSec hasOnEvent nowA initSession))).droneRef.map
        DroneState.oscsStopped = some true
    ∧ (dispose (stop (start (some quakes) durationSec hasOnEvent nowA
        initSession))).droneRef = none := by
  obtain ⟨q, qs, rfl⟩ := List.exists_cons_of_ne_nil hne
  refine ⟨rfl, ?_, ?_, ?_, ?_, ?_, ?_, ?_, ?_⟩ <;>
    simp [start, ensureDrone, stop, dispose, tryStop, sourceStop, initSession]

/-- Witness for the amended C6 with a single concrete event. -/
theorem drone_lifecycle_amended_witness :
    ([mkFeature 0] : List EarthquakeFeature) ≠ []
      ∧ (start (some [mkFeature 0]) 60 false 9
          (stop (start (some [mkFeature 0]) 60 false 4 initSession))).droneRef.map
          DroneState.gen = some 0 :=
  ⟨by decide,
    (drone_lifecycle_amended [mkFeature 0] (by decide) 60 4 9 false).2.2.2.2.2.2.1⟩

/-- `max lo (min hi x)` and `min hi (max lo x)` agree when `lo ≤ hi`: the two
ways of clamping to `[lo, hi]` coincide. -/
theorem clamp_comm (lo hi x : ℚ) (h : lo ≤ hi) :
    max lo (min hi x) = min hi (max lo x) := by
  rw [max_min_distrib_left, max_eq_right h]

/-- Claim C9: every percussive hit anchored at onset `t` schedules a noise
burst through a bandpass at `mapRange(clampedDepth, 0, 700, 6000, 400)` with
resonance 6, gain from 0 at `t` to `mapRange(clampedMag, 0, 7, 0.05, 0.35)`
at `t + 10 ms`, down to near-zero (≤ 0.001) by `t + 180 ms`, stopping at
`t + 250 ms`; a triangle click at `330 * mapRange(clampedMag, 0, 7, 0.7, 3.0)`
Hz whose gain peaks at `mapRange(clampedMag, 0, 7, 0.03, 0.2)` at `t + 5 ms`,
decays to near-zero by `t + 150 ms` and stops at `t + 200 ms`; both panned to
`mapRange(latitude, -90, 90, -1, 1)`. -/
theorem percussive_hit_params (t : ℚ) (mag lat depthKm : JsNum) :
    (schedulePercussiveHit t mag lat depthKm).pan = mapRange lat (-90) 90 (-1) 1
    ∧ (schedulePercussiveHit t mag lat depthKm).noiseCenterFreq
        = mapRange (.num (min 700 (max 0 depthKm.orZero))) 0 700 6000 400
    ∧ (schedulePercussiveHit t mag lat depthKm).noiseQ = 6
    ∧ (schedulePercussiveHit t mag lat depthKm).noiseGainStart = 0
    ∧ (schedulePercussiveHit t mag lat depthKm).noisePeakGain
        = mapRange (.num (min 7 (max 0 mag.orZero))) 0 7 (1 / 20) (7 / 20)
    ∧ (schedulePercussiveHit t mag lat depthKm).noisePeakTime = t + 1 / 100
    ∧ (schedulePercussiveHit t mag lat depthKm).noiseEndGain ≤ 1 / 1000
    ∧ (schedulePercussiveHit t mag lat depthKm).noiseEndTime = t + 9 / 50
    ∧ (schedulePercussiveHit t mag lat depthKm).noiseStartTime = t
    ∧ (schedulePercussiveHit t mag lat depthKm).noiseStopTime = t + 1 / 4
    ∧ (schedulePercussiveHit t mag lat depthKm).clickFreq
        = 330 * mapRange (.num (min 7 (max 0 mag.orZero))) 0 7 (7 / 10) 3
    ∧ (schedulePercussiveHit t mag lat depthKm).clickPeakGain
        = mapRange (.num (min 7 (max 0 mag.orZero))) 0 7 (3 / 100) (1 / 5)
    ∧ (schedulePercussiveHit t mag lat depthKm).clickPeakTime = t + 1 / 200
    ∧ (schedulePercussiveHit t mag lat depthKm).clickEndGain ≤ 1 / 1000
    ∧ (schedulePercussiveHit t mag lat depthKm).clickEndTime = t + 3 / 20
    ∧ (schedulePercussiveHit t mag lat depthKm).clickStartTime = t
    ∧ (schedulePercussiveHit t mag lat depthKm).clickStopTime = t + 1 / 5 := by
  have hmag : max 0 (min 7 mag.orZero) = min 7 (max 0 mag.orZero) :=
    clamp_comm 0 7 _ (by norm_num)
  have hdepth : max 0 (min 700 depthKm.orZero) = min 700 (max 0 depthKm.orZero) :=
    clamp_comm 0 700 _ (by norm_num)
  simp only [schedulePercussiveHit, hmag, hdepth]
  norm_num

end Sonifier
